import Mathlib

/-!
# mail-reporter: the report formatter, the draft-file purge and the fetch pairing

A shallow embedding of `main.go`.  Go strings are byte sequences, so a string is
a `List UInt8`; string literals of the source are their UTF-8 bytes.  The
functions of the Go standard library the program calls (`strings.HasPrefix`,
`strings.TrimPrefix`, `strings.Split`, `strings.SplitN`, `strings.TrimSpace`,
`bufio.Scanner` with `bufio.ScanLines`) are embedded from their Go sources, the
separator of `Split`/`SplitN` being one byte as at both call sites.
-/

namespace MailReporter

/-- A Go string: a sequence of bytes. -/
abbrev Str := List UInt8

/-- The bytes of a source string literal (Go source text is UTF-8). -/
def utf8 (s : String) : Str := s.data.flatMap String.utf8EncodeChar

/-! ## The `strings` and `unicode/utf8` functions the program uses -/

/-- Go `strings.HasPrefix`: `len(s) >= len(prefix) && s[:len(prefix)] == prefix`. -/
def HasPrefix (s pre : Str) : Bool :=
  decide (pre.length ≤ s.length) && (s.take pre.length == pre)

/-- Go `strings.TrimPrefix`: `s[len(prefix):]` when `s` has the prefix, else `s`. -/
def TrimPrefix (s pre : Str) : Str :=
  if HasPrefix s pre then s.drop pre.length else s

/-- Go `strings.IndexByte`: the index of the first `c` in `s`, `none` for Go's `-1`. -/
def IndexByte : Str → UInt8 → Option Nat
  | [], _ => none
  | b :: t, c => if b = c then some 0 else (IndexByte t c).map (· + 1)

/-- Go `strings.Count` at a one-byte separator: the number of `c` in `s`. -/
def Count (s : Str) (c : UInt8) : Nat := s.count c

/-- The loop of Go `genSplit`: `k` is the number of cuts still allowed (`n - 1 - i`);
each turn cuts at the first separator, and the rest of the string is the last piece. -/
def genSplitLoop (sep : UInt8) : Nat → Str → List Str
  | 0, s => [s]
  | k + 1, s =>
    match IndexByte s sep with
    | none => [s]
    | some m => s.take m :: genSplitLoop sep k (s.drop (m + 1))

/-- Go `genSplit(s, sep, 0, n)` for a one-byte separator: `n = 0` gives no piece, a
negative `n` means all pieces, and `n` is capped at `len(s) + 1`. -/
def genSplit (s : Str) (sep : UInt8) (n : Int) : List Str :=
  if n = 0 then []
  else
    let n : Nat := if n < 0 then Count s sep + 1 else n.toNat
    let n : Nat := if n > s.length + 1 then s.length + 1 else n
    genSplitLoop sep (n - 1) s

/-- Go `strings.Split(s, sep)` is `genSplit(s, sep, 0, -1)`. -/
def Split (s : Str) (sep : UInt8) : List Str := genSplit s sep (-1)

/-- Go `strings.SplitN(s, sep, n)` is `genSplit(s, sep, 0, n)`. -/
def SplitN (s : Str) (sep : UInt8) (n : Int) : List Str := genSplit s sep n

/-- Go `utf8.RuneError`, U+FFFD. -/
def RuneError : Nat := 0xFFFD

/-- The `first` and `acceptRanges` tables of Go `unicode/utf8` for a lead byte of a
multi-byte sequence: the sequence length and the accepted range of the second byte;
`none` for a byte that cannot start a multi-byte sequence. -/
def leadInfo (s0 : Nat) : Option (Nat × Nat × Nat) :=
  if 0xC2 ≤ s0 ∧ s0 ≤ 0xDF then some (2, 0x80, 0xBF)
  else if s0 = 0xE0 then some (3, 0xA0, 0xBF)
  else if 0xE1 ≤ s0 ∧ s0 ≤ 0xEC then some (3, 0x80, 0xBF)
  else if s0 = 0xED then some (3, 0x80, 0x9F)
  else if 0xEE ≤ s0 ∧ s0 ≤ 0xEF then some (3, 0x80, 0xBF)
  else if s0 = 0xF0 then some (4, 0x90, 0xBF)
  else if 0xF1 ≤ s0 ∧ s0 ≤ 0xF3 then some (4, 0x80, 0xBF)
  else if s0 = 0xF4 then some (4, 0x80, 0x8F)
  else none

/-- Go `utf8.DecodeRuneInString`: the first rune of `s` and its width in bytes;
`(RuneError, 0)` for the empty string and `(RuneError, 1)` for an invalid encoding. -/
def DecodeRuneInString (s : Str) : Nat × Nat :=
  match s with
  | [] => (RuneError, 0)
  | b0 :: t =>
    let s0 := b0.toNat
    if s0 < 0x80 then (s0, 1)
    else
      match leadInfo s0 with
      | none => (RuneError, 1)
      | some (sz, lo, hi) =>
        if s.length < sz then (RuneError, 1)
        else
          match t with
          | [] => (RuneError, 1)
          | b1 :: t1 =>
            let s1 := b1.toNat
            if s1 < lo ∨ hi < s1 then (RuneError, 1)
            else if sz ≤ 2 then ((s0 % 0x20) * 0x40 + s1 % 0x40, 2)
            else
              match t1 with
              | [] => (RuneError, 1)
              | b2 :: t2 =>
                let s2 := b2.toNat
                if s2 < 0x80 ∨ 0xBF < s2 then (RuneError, 1)
                else if sz ≤ 3 then
                  ((s0 % 0x10) * 0x1000 + (s1 % 0x40) * 0x40 + s2 % 0x40, 3)
                else
                  match t2 with
                  | [] => (RuneError, 1)
                  | b3 :: _ =>
                    let s3 := b3.toNat
                    if s3 < 0x80 ∨ 0xBF < s3 then (RuneError, 1)
                    else
                      ((s0 % 0x08) * 0x40000 + (s1 % 0x40) * 0x1000
                        + (s2 % 0x40) * 0x40 + s3 % 0x40, 4)

/-- Go `utf8.RuneStart`: `b&0xC0 != 0x80`. -/
def RuneStart (b : UInt8) : Bool := !(decide (0x80 ≤ b.toNat ∧ b.toNat ≤ 0xBF))

/-- The backward search of Go `utf8.DecodeLastRuneInString`,
`for start--; start >= lim; start-- { if RuneStart(s[start]) { break } }`:
the argument is the index to test next, the fuel bounds the (at most three) turns. -/
def lastRuneStart (s : Str) (lim : Int) : Nat → Int → Int
  | 0, start => start
  | fuel + 1, start =>
    if lim ≤ start then
      if RuneStart (s.getD start.toNat 0) then start
      else lastRuneStart s lim fuel (start - 1)
    else start

/-- Go `utf8.DecodeLastRuneInString`: the last rune of `s` and its width. -/
def DecodeLastRuneInString (s : Str) : Nat × Nat :=
  let stop := s.length
  if stop = 0 then (RuneError, 0)
  else
    let r := (s.getD (stop - 1) 0).toNat
    if r < 0x80 then (r, 1)
    else
      let lim : Int := if (stop : Int) - 4 < 0 then 0 else (stop : Int) - 4
      let start := lastRuneStart s lim 4 ((stop : Int) - 2)
      let start : Nat := if start < 0 then 0 else start.toNat
      let (r, size) := DecodeRuneInString (s.drop start)
      if start + size ≠ stop then (RuneError, 1) else (r, size)

/-- Go `unicode.IsSpace`: the Latin-1 spaces and the `White_Space` table above them. -/
def IsSpace (r : Nat) : Bool :=
  if r ≤ 0xFF then
    r = 0x09 ∨ r = 0x0A ∨ r = 0x0B ∨ r = 0x0C ∨ r = 0x0D ∨ r = 0x20 ∨ r = 0x85 ∨ r = 0xA0
  else
    r = 0x1680 ∨ (0x2000 ≤ r ∧ r ≤ 0x200A) ∨ r = 0x2028 ∨ r = 0x2029 ∨ r = 0x202F
      ∨ r = 0x205F ∨ r = 0x3000

/-- The `asciiSpace` table of Go `strings`. -/
def asciiSpace (c : UInt8) : Bool :=
  c = 0x09 ∨ c = 0x0A ∨ c = 0x0B ∨ c = 0x0C ∨ c = 0x0D ∨ c = 0x20

/-- Go `indexFunc(s, f, false)`: the byte index of the first rune on which `f` is
false, ranging over the runes of `s` from offset `i`; `none` for Go's `-1`.  The
fuel is the number of bytes left, every rune taking at least one. -/
def indexFunc (f : Nat → Bool) : Nat → Str → Nat → Option Nat
  | 0, _, _ => none
  | fuel + 1, s, i =>
    match s with
    | [] => none
    | _ :: _ =>
      let (r, size) := DecodeRuneInString s
      if f r = false then some i else indexFunc f fuel (s.drop size) (i + size)

/-- Go `lastIndexFunc(s, f, false)`: going down from `i`, the start of the last rune
of `s[0:i]` on which `f` is false; `none` for Go's `-1`. -/
def lastIndexFunc (f : Nat → Bool) (s : Str) : Nat → Nat → Option Nat
  | 0, _ => none
  | fuel + 1, i =>
    if 0 < i then
      let (r, size) := DecodeLastRuneInString (s.take i)
      let i := i - size
      if f r = false then some i else lastIndexFunc f s fuel i
    else none

/-- Go `strings.TrimLeftFunc`. -/
def TrimLeftFunc (s : Str) (f : Nat → Bool) : Str :=
  match indexFunc f s.length s 0 with
  | none => []
  | some i => s.drop i

/-- Go `strings.TrimRightFunc`. -/
def TrimRightFunc (s : Str) (f : Nat → Bool) : Str :=
  match lastIndexFunc f s s.length s.length with
  | some i =>
    if 0x80 ≤ (s.getD i 0).toNat then s.take (i + (DecodeRuneInString (s.drop i)).2)
    else s.take (i + 1)
  | none => []

/-- Go `strings.TrimFunc`. -/
def TrimFunc (s : Str) (f : Nat → Bool) : Str := TrimRightFunc (TrimLeftFunc s f) f

/-- Go `strings.TrimSpace`: the ASCII fast path from both ends, falling back to the
rune-wise trim at the first byte that is not ASCII. -/
def TrimSpace (s : Str) : Str :=
  let s1 := s.dropWhile asciiSpace
  match s1 with
  | [] => []
  | c :: _ =>
    if 0x80 ≤ c.toNat then TrimFunc s1 IsSpace
    else
      let r := s1.reverse.dropWhile asciiSpace
      match r with
      | [] => []
      | d :: _ => if 0x80 ≤ d.toNat then TrimRightFunc r.reverse IsSpace else r.reverse

/-! ## `main.go`: configuration and the report formatter -/

/-- The constant `CommentPrefix` of `main.go`. -/
def CommentPrefix : Str := utf8 "#"

/-- The constant `OtherPrefix` of `main.go`. -/
def OtherPrefix : Str := utf8 "OTHER "

/-- The struct `ConfigReport` of `main.go`. -/
structure ConfigReport where
  AuthorName : Str
  SubjectPrefix : Str
  TaskPrefix : Str

/-- The struct `ConfigJIRA` of `main.go`. -/
structure ConfigJIRA where
  Host : Str

/-- The struct `Config` of `main.go`. -/
structure Config where
  InputFile : Str
  MyEmail : Str
  WorkEmail : Str
  SmtpHost : Str
  Report : ConfigReport
  JIRA : ConfigJIRA

/-- The body of the `for _, line := range lines` loop of `generateReport`: `msg` is
the content of the string builder, each `msg.WriteString(x)` is `msg ++ x`. -/
def writeLine (config : Config) (msg : Str) (line : Str) : Str :=
  if HasPrefix line config.Report.TaskPrefix then
    let tokens := SplitN line 0x20 2
    let msg := msg ++ utf8 "<li><b><a href=\""
    let msg := msg ++ config.JIRA.Host
    let msg := msg ++ utf8 "browse/"
    let msg := msg ++ tokens.getD 0 []
    let msg := msg ++ utf8 "\">"
    let msg := msg ++ tokens.getD 0 []
    let msg := msg ++ utf8 "</a>"
    let msg := if tokens.length > 1 then msg ++ (utf8 " " ++ tokens.getD 1 []) else msg
    msg ++ utf8 "</b></li>"
  else if HasPrefix line OtherPrefix then
    let msg := msg ++ utf8 "<li>"
    let msg := msg ++ TrimPrefix line OtherPrefix
    msg ++ utf8 "</li>"
  else if HasPrefix line CommentPrefix then
    msg
  else
    let msg := msg ++ utf8 "<ul type=\"circle\"><li>"
    let msg := msg ++ line
    msg ++ utf8 "</li></ul>"

/-- The function `generateReport` of `main.go`. -/
def generateReport (config : Config) (text to_ date : Str) : Str :=
  let msg : Str := []
  let msg := msg ++ utf8 "From: "
  let msg := msg ++ config.Report.AuthorName
  let msg := msg ++ utf8 "<"
  let msg := msg ++ config.MyEmail
  let msg := msg ++ utf8 ">\nTo: "
  let msg := msg ++ to_
  let msg := msg ++ utf8 "\nSubject: "
  let msg := msg ++ config.Report.SubjectPrefix
  let msg := msg ++ date
  let msg := msg ++ utf8 "\nMIME-Version: 1.0\n"
  let msg := msg ++ utf8 "Content-Type: text/html; charset=UTF-8\n"
  let msg := msg ++ utf8 "<ul type=\"disc\">"
  let lines := Split (TrimSpace text) 0x0A
  let msg := lines.foldl (writeLine config) msg
  let msg := msg ++ utf8 "</ul>\n<br><br>--<br>С уважением,<br>"
  msg ++ config.Report.AuthorName

/-! ## Reading the formatter: header, per-line fragment, footer -/

/-- What the loop body appends for one line: the loop body run on an empty builder. -/
def lineFragment (config : Config) (line : Str) : Str := writeLine config [] line

/-- What the loop appends for a list of lines: their fragments, in order. -/
def linesBody (config : Config) (lines : List Str) : Str :=
  (lines.map (lineFragment config)).flatten

/-- The text `generateReport` writes before the loop. -/
def reportHeader (config : Config) (to_ date : Str) : Str :=
  utf8 "From: " ++ config.Report.AuthorName ++ utf8 "<" ++ config.MyEmail
    ++ utf8 ">\nTo: " ++ to_ ++ utf8 "\nSubject: " ++ config.Report.SubjectPrefix ++ date
    ++ utf8 "\nMIME-Version: 1.0\nContent-Type: text/html; charset=UTF-8\n"
    ++ utf8 "<ul type=\"disc\">"

/-- The text `generateReport` writes after the loop. -/
def reportFooter (config : Config) : Str :=
  utf8 "</ul>\n<br><br>--<br>С уважением,<br>" ++ config.Report.AuthorName

/-- The lines the formatter works on: the trimmed text split on the newline byte. -/
def reportLines (text : Str) : List Str := Split (TrimSpace text) 0x0A

/-- An example configuration: task prefix `PROJ-`, host `https://tracker.example.com/`. -/
def exampleConfig : Config where
  InputFile := utf8 "report.txt"
  MyEmail := utf8 "me@example.com"
  WorkEmail := utf8 "team@example.com"
  SmtpHost := utf8 "smtp.example.com"
  Report := ⟨utf8 "Ann", utf8 "Report ", utf8 "PROJ-"⟩
  JIRA := ⟨utf8 "https://tracker.example.com/"⟩

/-- A configuration whose task prefix is empty (the key is left out of the file). -/
def noPrefixConfig : Config where
  InputFile := utf8 "report.txt"
  MyEmail := utf8 "me@example.com"
  WorkEmail := utf8 "team@example.com"
  SmtpHost := utf8 "smtp.example.com"
  Report := ⟨utf8 "Ann", utf8 "Report ", []⟩
  JIRA := ⟨utf8 "https://tracker.example.com/"⟩

/-- A configuration whose task prefix starts with the comment marker. -/
def hashPrefixConfig : Config where
  InputFile := utf8 "report.txt"
  MyEmail := utf8 "me@example.com"
  WorkEmail := utf8 "team@example.com"
  SmtpHost := utf8 "smtp.example.com"
  Report := ⟨utf8 "Ann", utf8 "Report ", utf8 "#PROJ-"⟩
  JIRA := ⟨utf8 "https://tracker.example.com/"⟩

/-- A configuration whose task prefix is the `OTHER ` marker. -/
def otherPrefixConfig : Config where
  InputFile := utf8 "report.txt"
  MyEmail := utf8 "me@example.com"
  WorkEmail := utf8 "team@example.com"
  SmtpHost := utf8 "smtp.example.com"
  Report := ⟨utf8 "Ann", utf8 "Report ", utf8 "OTHER "⟩
  JIRA := ⟨utf8 "https://tracker.example.com/"⟩

/-! ## The formatter as the spec describes it -/

/-- The lines of a text as the spec has them: the pieces between newline bytes. -/
def specLines : Str → List Str
  | [] => [[]]
  | c :: t =>
    if c = 0x0A then [] :: specLines t
    else
      match specLines t with
      | [] => [[c]]
      | l :: ls => (c :: l) :: ls

/-- The task item of the spec: the first token (up to the first space) as link target
and link text, then, when the line has a space, a space and everything after the
first space. -/
def specTaskFragment (config : Config) (line : Str) : Str :=
  let token0 := line.takeWhile (· ≠ 0x20)
  let remainder := (line.dropWhile (· ≠ 0x20)).drop 1
  utf8 "<li><b><a href=\"" ++ config.JIRA.Host ++ utf8 "browse/" ++ token0 ++ utf8 "\">"
    ++ token0 ++ utf8 "</a>"
    ++ (if (0x20 : UInt8) ∈ line then utf8 " " ++ remainder else [])
    ++ utf8 "</b></li>"

/-- The fragment of one line as the spec has it, first match wins: task line, then
`OTHER ` line, then comment line, then the nested bullet. -/
def specFragment (config : Config) (line : Str) : Str :=
  if config.Report.TaskPrefix <+: line then specTaskFragment config line
  else if utf8 "OTHER " <+: line then
    utf8 "<li>" ++ line.drop (utf8 "OTHER ").length ++ utf8 "</li>"
  else if utf8 "#" <+: line then []
  else utf8 "<ul type=\"circle\"><li>" ++ line ++ utf8 "</li></ul>"

/-- The report as the spec has it: header, one fragment per line, footer. -/
def specReport (config : Config) (text to_ date : Str) : Str :=
  (utf8 "From: " ++ config.Report.AuthorName ++ utf8 "<" ++ config.MyEmail
      ++ utf8 ">\nTo: " ++ to_ ++ utf8 "\nSubject: " ++ config.Report.SubjectPrefix ++ date
      ++ utf8 "\nMIME-Version: 1.0\nContent-Type: text/html; charset=UTF-8\n"
      ++ utf8 "<ul type=\"disc\">")
    ++ ((specLines (TrimSpace text)).map (specFragment config)).flatten
    ++ (utf8 "</ul>\n<br><br>--<br>С уважением,<br>" ++ config.Report.AuthorName)

/-! ## `main.go`: the fetch pairing of `getJIRATasks` -/

/-- A Go `error` value, by its message. -/
abbrev Err := String

/-- How a Go call ends: it returns its value with a nil error, returns a non-nil
error, or panics with `index out of range [index] with length length`. -/
inductive Outcome (α : Type) where
  | ok (value : α)
  | error (err : Err)
  | panic (index length : Nat)
  deriving DecidableEq

/-- One element of the result of `re.FindAllSubmatch`: the text of the whole match
(index 0) and the text of the only capture group of the pattern (index 1). -/
structure Submatch where
  whole : Str
  group1 : Str
  deriving DecidableEq

/-- The loop `for i := 0; i < len(matches); i += 2` of `getJIRATasks`: each turn
reads `matches[i][1]` and `matches[i+1][1]` and appends their join to `jiraTasks`;
an index that is out of range panics.  `none` when the fuel runs out. -/
def pairLoop (matches_ : List Submatch) : Nat → Nat → List Str → Option (Outcome (List Str))
  | 0, _, _ => none
  | fuel + 1, i, jiraTasks =>
    if i < matches_.length then
      match matches_.get? i with
      | none => some (.panic i matches_.length)
      | some m0 =>
        match matches_.get? (i + 1) with
        | none => some (.panic (i + 1) matches_.length)
        | some m1 =>
          pairLoop matches_ fuel (i + 2) (jiraTasks ++ [m0.group1 ++ utf8 " " ++ m1.group1])
    else some (.ok jiraTasks)

/-- The function `getJIRATasks` of `main.go`.  `fetched` is what lines 49 to 75 give:
the error of building the request, of the transport or of reading the body, or the
matches of the pattern in the body, in document order.  The loop gets one unit of
fuel per match and one more. -/
def getJIRATasks (fetched : Except Err (List Submatch)) : Option (Outcome (List Str)) :=
  match fetched with
  | .error err => some (.error err)
  | .ok matches_ => pairLoop matches_ (matches_.length + 1) 0 []

/-! ## `bufio.Scanner` with the default split function `bufio.ScanLines` -/

/-- Go `bufio.MaxScanTokenSize`, the size limit of the scanner's buffer. -/
def MaxScanTokenSize : Nat := 64 * 1024

/-- Go `bufio.ErrTooLong`. -/
def ErrTooLong : Err := "bufio.Scanner: token too long"

/-- Go `dropCR` of `bufio`: drop one trailing carriage return. -/
def dropCR (data : Str) : Str :=
  if data.getLast? = some 0x0D then data.dropLast else data

/-- Go `bufio.ScanLines`: the number of bytes to advance and the token, if any. -/
def ScanLines (data : Str) (atEOF : Bool) : Nat × Option Str :=
  if atEOF = true ∧ data.length = 0 then (0, none)
  else
    match IndexByte data 0x0A with
    | some i => (i + 1, some (dropCR (data.take i)))
    | none => if atEOF then (data.length, some (dropCR data)) else (0, none)

/-- What one call of `Scanner.Scan` gives. -/
inductive ScanStep where
  | token (text : Str) (rest : Str)
  | done
  | tooLong
  deriving DecidableEq

/-- One call of `Scanner.Scan` on a reader with the bytes `rest` left, the first of
them starting the next token.  The buffer takes in at most `MaxScanTokenSize` bytes
from there; the split function sees end of input only when the buffer has taken in
everything and is not full.  A token is handed out when the split function finds one;
with a full buffer and no token the scanner stops with `ErrTooLong`. -/
def Scan (rest : Str) : ScanStep :=
  let buf := rest.take MaxScanTokenSize
  let atEOF := decide (rest.length < MaxScanTokenSize)
  match ScanLines buf atEOF with
  | (advance, some token) => .token token (rest.drop advance)
  | (_, none) => if atEOF then .done else .tooLong

/-! ## `main.go`: the draft file -/

/-- What the operating system answers to the file operations of one run: `none`
where the operation succeeds. -/
structure Faults where
  /-- Error of `os.OpenFile(InputFile, O_RDONLY|O_CREATE)` in `cleanInpulFile`. -/
  openRead : Option Err
  /-- Reading fails with the error after the given number of bytes came through. -/
  read : Option (Nat × Err)
  /-- Error of `ioutil.WriteFile` and the content it leaves in the file. -/
  writeFile : Option (Err × Str)
  /-- Error of `os.OpenFile(InputFile, O_APPEND|O_CREATE|O_WRONLY)` in `dumpJIRATasks`. -/
  openAppend : Option Err
  /-- Index of the `WriteString` call that fails, writing nothing, and its error. -/
  writeString : Option (Nat × Err)

/-- Every file operation succeeds. -/
def noFaults : Faults := ⟨none, none, none, none, none⟩

/-- The loop `for scanner.Scan() { ... }` of `cleanInpulFile`: `rest` is what the
scanner has not consumed, `builder` the content of the string builder.  It gives the
builder and `scanner.Err()` as far as the scanner itself sets it; `none` when the
fuel runs out. -/
def scanLoop : Nat → Str → Str → Option (Str × Option Err)
  | 0, _, _ => none
  | fuel + 1, rest, builder =>
    match Scan rest with
    | .token line rest1 =>
      if !HasPrefix line CommentPrefix then
        scanLoop fuel rest1 (builder ++ line ++ utf8 "\n")
      else scanLoop fuel rest1 builder
    | .done => some (builder, none)
    | .tooLong => some (builder, some ErrTooLong)

/-- The function `cleanInpulFile` of `main.go` on the file at `config.InputFile`,
whose state is `disk` (`none`: there is no such file).  It gives the returned error
and the new state of the file.  The scanner loop gets one unit of fuel per byte and
one more. -/
def cleanInpulFile (env : Faults) (disk : Option Str) : Option (Option Err × Option Str) :=
  match env.openRead with
  | some _ => some (none, disk)
  | none =>
    let content := disk.getD []
    let input := match env.read with
      | some (n, _) => content.take n
      | none => content
    match scanLoop (input.length + 1) input [] with
    | none => none
    | some (builder, scanErr) =>
      let err := match scanErr with
        | some e => some e
        | none => env.read.map (·.2)
      match err with
      | some e => some (some e, some content)
      | none =>
        match env.writeFile with
        | some (e, left) => some (some e, some left)
        | none => some (none, some builder)

/-- The loop `for _, jt := range jiraTasks` of `dumpJIRATasks`: `k` counts the
`WriteString` calls made so far, `content` is the file. -/
def dumpLoop (env : Faults) : List Str → Nat → Str → Option Err × Str
  | [], _, content => (none, content)
  | jt :: rest, k, content =>
    match env.writeString with
    | some (j, e) =>
      if j = k then (some e, content)
      else dumpLoop env rest (k + 1) (content ++ (CommentPrefix ++ jt ++ utf8 "\n"))
    | none => dumpLoop env rest (k + 1) (content ++ (CommentPrefix ++ jt ++ utf8 "\n"))

/-- The function `dumpJIRATasks` of `main.go` on the file at `config.InputFile`. -/
def dumpJIRATasks (env : Faults) (jiraTasks : List Str) (disk : Option Str) :
    Option Err × Option Str :=
  match env.openAppend with
  | some e => (some e, disk)
  | none =>
    let r := dumpLoop env jiraTasks 0 (disk.getD [])
    (r.1, some r.2)

/-- Lines 127 to 131 of `getAndDumpJIRATasks`: purge, and append unless the purge
returned an error. -/
def purgeThenAppend (env : Faults) (jiraTasks : List Str) (disk : Option Str) :
    Option (Option Err × Option Str) :=
  match cleanInpulFile env disk with
  | none => none
  | some (some e, disk1) => some (some e, disk1)
  | some (none, disk1) => some (dumpJIRATasks env jiraTasks disk1)

/-- The function `getAndDumpJIRATasks` of `main.go`: how the call ends and the new
state of the file. -/
def getAndDumpJIRATasks (env : Faults) (fetched : Except Err (List Submatch))
    (disk : Option Str) : Option (Outcome Unit × Option Str) :=
  match getJIRATasks fetched with
  | none => none
  | some (.error e) => some (.error e, disk)
  | some (.panic i n) => some (.panic i n, disk)
  | some (.ok jiraTasks) =>
    match purgeThenAppend env jiraTasks disk with
    | none => none
    | some (some e, disk1) => some (.error e, disk1)
    | some (none, disk1) => some (.ok (), disk1)

/-! ## The fetch pairing as the spec describes it -/

/-- The anchor the pattern matches for a link text, with the text as its group. -/
def anchor (key text : String) : Submatch :=
  ⟨utf8 "<a class=\"issue-link\" data-issue-key=\"" ++ utf8 key ++ utf8 "\" href=\"/browse/"
      ++ utf8 key ++ utf8 "\">" ++ utf8 text ++ utf8 "</a>", utf8 text⟩

/-- Four matches: key and title of `A1`, key and title of `B2`. -/
def exampleMatches : List Submatch :=
  [anchor "A1" "A1", anchor "A1" "Title A", anchor "B2" "B2", anchor "B2" "Title B"]

/-- Pairing two at a time, as the spec has it: identifier, title, identifier, title. -/
def pairUp : List Submatch → List Str
  | a :: b :: rest => (a.group1 ++ utf8 " " ++ b.group1) :: pairUp rest
  | _ => []

/-! ## The draft file as the spec describes it -/

/-- The lines of a file as the spec has them: the pieces between newline bytes, a
newline at the very end not starting another line, each line without one carriage
return at its end, if it has one. -/
def fileLines (content : Str) : List Str :=
  let pieces := specLines content
  (if pieces.getLast? = some [] then pieces.dropLast else pieces).map dropCR

/-- The purged file: the lines that do not start with the comment marker, in order,
each followed by one newline byte. -/
def purged (content : Str) : Str :=
  (((fileLines content).filter (fun l => !decide (utf8 "#" <+: l))).map
    (· ++ utf8 "\n")).flatten

/-- What the append step writes: one line `#` + task per fetched task. -/
def dumped (jiraTasks : List Str) : Str :=
  (jiraTasks.map (fun jt => utf8 "#" ++ jt ++ utf8 "\n")).flatten

/-- Content in which no line reaches the buffer limit of the scanner. -/
def LinesFit (content : Str) : Prop :=
  ∀ l ∈ specLines content, l.length < MaxScanTokenSize

/-- The lines of a content with their terminators, every piece ending after its
newline byte and the last piece as it stands. -/
def terminatedLines : Str → List Str
  | [] => []
  | c :: t =>
    if c = 0x0A then [c] :: terminatedLines t
    else
      match terminatedLines t with
      | [] => [[c]]
      | l :: ls => (c :: l) :: ls

/-- The lines that do not start with the comment marker, each with its original
terminator, in order. -/
def keptWithTerminators (content : Str) : Str :=
  ((terminatedLines content).filter (fun l => !decide (utf8 "#" <+: l))).flatten

/-- Lines written one after the other, each followed by one newline byte. -/
def terminated (lines : List Str) : Str := (lines.map (· ++ utf8 "\n")).flatten

/-- A line of `MaxScanTokenSize` bytes `a`, without terminator. -/
def longLine : Str := List.replicate MaxScanTokenSize 0x61

/-- A draft with a stale comment line and two lines of the user. -/
def exampleDraft : Str := utf8 "done\r\n#OLD-1 stale\nOTHER x\n"

/-- The draft file cannot be opened for reading (say it is write-only, mode 0200);
opening it for appending and writing to it succeed. -/
def unreadableDraft : Faults :=
  ⟨some "open report.txt: permission denied", none, none, none, none⟩

/-- Writing the purged draft back fails (say the disk is full) and leaves the file
empty; every other operation succeeds. -/
def fullDisk : Faults :=
  ⟨none, none, some ("write report.txt: no space left on device", []), none, none⟩

/-! ## Basic facts about the embedded functions -/

theorem utf8_append (a b : String) : utf8 (a ++ b) = utf8 a ++ utf8 b := by
  simp [utf8, String.data_append]

theorem writeLine_append (config : Config) (msg line : Str) :
    writeLine config msg line = msg ++ lineFragment config line := by
  unfold lineFragment writeLine
  simp only [List.nil_append]
  split_ifs <;> simp [List.append_assoc]

theorem foldl_writeLine (config : Config) (lines : List Str) (msg : Str) :
    lines.foldl (writeLine config) msg = msg ++ linesBody config lines := by
  induction lines generalizing msg with
  | nil => simp [linesBody]
  | cons l ls ih =>
    rw [List.foldl_cons, ih, writeLine_append]
    simp [linesBody, List.append_assoc]

theorem linesBody_append (config : Config) (a b : List Str) :
    linesBody config (a ++ b) = linesBody config a ++ linesBody config b := by
  simp [linesBody]

theorem linesBody_cons (config : Config) (l : Str) (ls : List Str) :
    linesBody config (l :: ls) = lineFragment config l ++ linesBody config ls := by
  simp [linesBody]

theorem generateReport_eq (config : Config) (text to_ date : Str) :
    generateReport config text to_ date
      = reportHeader config to_ date ++ linesBody config (reportLines text)
          ++ reportFooter config := by
  have h : utf8 "\nMIME-Version: 1.0\nContent-Type: text/html; charset=UTF-8\n"
      = utf8 "\nMIME-Version: 1.0\n" ++ utf8 "Content-Type: text/html; charset=UTF-8\n" := by
    rfl
  unfold generateReport
  simp only [foldl_writeLine, reportHeader, reportFooter, reportLines, List.nil_append,
    List.append_assoc, h]

theorem IndexByte_of_not_mem (s : Str) (c : UInt8) (h : c ∉ s) : IndexByte s c = none := by
  induction s with
  | nil => rfl
  | cons b t ih =>
    simp only [List.mem_cons, not_or] at h
    simp [IndexByte, Ne.symm h.1, ih h.2]

theorem IndexByte_append (a b : Str) (c : UInt8) (h : c ∉ a) :
    IndexByte (a ++ c :: b) c = some a.length := by
  induction a with
  | nil => simp [IndexByte]
  | cons x t ih =>
    simp only [List.mem_cons, not_or] at h
    simp [IndexByte, Ne.symm h.1, ih h.2]

theorem SplitN_two_of_space (tok0 rest : Str) (c : UInt8) (h : c ∉ tok0) :
    SplitN (tok0 ++ c :: rest) c 2 = [tok0, rest] := by
  simp [SplitN, genSplit, genSplitLoop, IndexByte_append _ _ _ h]

theorem SplitN_two_of_not_mem (line : Str) (c : UInt8) (h : c ∉ line) :
    SplitN line c 2 = [line] := by
  cases line with
  | nil => simp [SplitN, genSplit, genSplitLoop]
  | cons b t =>
    simp [SplitN, genSplit, genSplitLoop, IndexByte_of_not_mem _ _ h]

theorem HasPrefix_iff (s pre : Str) : HasPrefix s pre = true ↔ pre <+: s := by
  unfold HasPrefix
  constructor
  · intro h
    simp only [Bool.and_eq_true, decide_eq_true_eq, beq_iff_eq] at h
    rw [← h.2]
    exact List.take_prefix _ _
  · rintro ⟨t, rfl⟩
    simp

theorem lineFragment_task_space (config : Config) (tok0 rest : Str)
    (hpre : config.Report.TaskPrefix <+: tok0 ++ utf8 " " ++ rest)
    (hsp : (0x20 : UInt8) ∉ tok0) :
    lineFragment config (tok0 ++ utf8 " " ++ rest)
      = utf8 "<li><b><a href=\"" ++ config.JIRA.Host ++ utf8 "browse/" ++ tok0
          ++ utf8 "\">" ++ tok0 ++ utf8 "</a> " ++ rest ++ utf8 "</b></li>" := by
  have hs : utf8 " " = [0x20] := rfl
  have ha : utf8 "</a> " = utf8 "</a>" ++ utf8 " " := rfl
  have hp := (HasPrefix_iff _ _).2 hpre
  rw [hs, List.append_assoc, List.singleton_append] at hp ⊢
  simp [lineFragment, writeLine, hp, SplitN_two_of_space _ _ _ hsp, ha, hs]

/-- C1: a line of the trimmed text that starts with the task prefix and has a first
space, `tok0` being the part before it and `rest` the part after it, is written as
the linked task item followed by a space and `rest`, whatever else the line starts
with; the report is the header, the fragments of the lines before, this item, the
fragments of the lines after, and the footer. -/
theorem task_line_with_remainder (config : Config) (text to_ date : Str)
    (before after : List Str) (tok0 rest : Str)
    (hlines : reportLines text = before ++ (tok0 ++ utf8 " " ++ rest) :: after)
    (hpre : config.Report.TaskPrefix <+: tok0 ++ utf8 " " ++ rest)
    (hsp : (0x20 : UInt8) ∉ tok0) :
    lineFragment config (tok0 ++ utf8 " " ++ rest)
        = utf8 "<li><b><a href=\"" ++ config.JIRA.Host ++ utf8 "browse/" ++ tok0
            ++ utf8 "\">" ++ tok0 ++ utf8 "</a> " ++ rest ++ utf8 "</b></li>"
      ∧ generateReport config text to_ date
        = reportHeader config to_ date ++ linesBody config before
            ++ (utf8 "<li><b><a href=\"" ++ config.JIRA.Host ++ utf8 "browse/" ++ tok0
              ++ utf8 "\">" ++ tok0 ++ utf8 "</a> " ++ rest ++ utf8 "</b></li>")
            ++ linesBody config after ++ reportFooter config := by
  have hf := lineFragment_task_space config tok0 rest hpre hsp
  refine ⟨hf, ?_⟩
  rw [generateReport_eq, hlines, linesBody_append, linesBody_cons, hf]
  simp only [List.append_assoc]

/-- The example of C1: task prefix `PROJ-`, host `https://tracker.example.com/`, line
`PROJ-12 Fix login bug`; and two lines that start with the task prefix and also with
`OTHER ` or with `#`, written as task items all the same. -/
theorem task_line_with_remainder_witness :
    lineFragment exampleConfig (utf8 "PROJ-12 Fix login bug")
        = utf8 "<li><b><a href=\"https://tracker.example.com/browse/PROJ-12\">PROJ-12</a> Fix login bug</b></li>"
      ∧ lineFragment otherPrefixConfig (utf8 "OTHER PROJ-7 deploy")
        = utf8 "<li><b><a href=\"https://tracker.example.com/browse/OTHER\">OTHER</a> PROJ-7 deploy</b></li>"
      ∧ lineFragment hashPrefixConfig (utf8 "#PROJ-99 stale ticket")
        = utf8 "<li><b><a href=\"https://tracker.example.com/browse/#PROJ-99\">#PROJ-99</a> stale ticket</b></li>" :=
  ⟨(task_line_with_remainder exampleConfig (utf8 "PROJ-12 Fix login bug") [] [] [] []
      (utf8 "PROJ-12") (utf8 "Fix login bug") (by decide) (by decide) (by decide)).1.trans
      (by decide),
   (task_line_with_remainder otherPrefixConfig (utf8 "OTHER PROJ-7 deploy") [] [] [] []
      (utf8 "OTHER") (utf8 "PROJ-7 deploy") (by decide) (by decide) (by decide)).1.trans
      (by decide),
   (task_line_with_remainder hashPrefixConfig (utf8 "#PROJ-99 stale ticket") [] [] [] []
      (utf8 "#PROJ-99") (utf8 "stale ticket") (by decide) (by decide) (by decide)).1.trans
      (by decide)⟩

theorem OtherPrefix_bytes : OtherPrefix = [0x4F, 0x54, 0x48, 0x45, 0x52, 0x20] := by decide

theorem CommentPrefix_bytes : CommentPrefix = [0x23] := by decide

theorem not_other_of_comment (line : Str) (h : CommentPrefix <+: line) :
    ¬ OtherPrefix <+: line := by
  rw [CommentPrefix_bytes] at h
  rw [OtherPrefix_bytes]
  obtain ⟨t, rfl⟩ := h
  rintro ⟨u, hu⟩
  simp at hu

theorem lineFragment_task_nospace (config : Config) (line : Str)
    (hpre : config.Report.TaskPrefix <+: line) (hsp : (0x20 : UInt8) ∉ line) :
    lineFragment config line
      = utf8 "<li><b><a href=\"" ++ config.JIRA.Host ++ utf8 "browse/" ++ line
          ++ utf8 "\">" ++ line ++ utf8 "</a></b></li>" := by
  have ha : utf8 "</a></b></li>" = utf8 "</a>" ++ utf8 "</b></li>" := rfl
  have hp := (HasPrefix_iff _ _).2 hpre
  simp [lineFragment, writeLine, hp, SplitN_two_of_not_mem _ _ hsp, ha]

theorem lineFragment_comment (config : Config) (line : Str)
    (htask : ¬ config.Report.TaskPrefix <+: line) (hc : CommentPrefix <+: line) :
    lineFragment config line = [] := by
  have h1 : HasPrefix line config.Report.TaskPrefix = false := by
    rw [← Bool.not_eq_true, HasPrefix_iff]; exact htask
  have h2 : HasPrefix line OtherPrefix = false := by
    rw [← Bool.not_eq_true, HasPrefix_iff]; exact not_other_of_comment line hc
  have h3 := (HasPrefix_iff _ _).2 hc
  simp [lineFragment, writeLine, h1, h2, h3]

theorem lineFragment_default (config : Config) (line : Str)
    (htask : ¬ config.Report.TaskPrefix <+: line) (ho : ¬ OtherPrefix <+: line)
    (hc : ¬ CommentPrefix <+: line) :
    lineFragment config line = utf8 "<ul type=\"circle\"><li>" ++ line ++ utf8 "</li></ul>" := by
  have h1 : HasPrefix line config.Report.TaskPrefix = false := by
    rw [← Bool.not_eq_true, HasPrefix_iff]; exact htask
  have h2 : HasPrefix line OtherPrefix = false := by
    rw [← Bool.not_eq_true, HasPrefix_iff]; exact ho
  have h3 : HasPrefix line CommentPrefix = false := by
    rw [← Bool.not_eq_true, HasPrefix_iff]; exact hc
  simp [lineFragment, writeLine, h1, h2, h3]

theorem lineFragment_other (config : Config) (line : Str)
    (htask : ¬ config.Report.TaskPrefix <+: line) (ho : OtherPrefix <+: line) :
    lineFragment config line
      = utf8 "<li>" ++ line.drop OtherPrefix.length ++ utf8 "</li>" := by
  have h1 : HasPrefix line config.Report.TaskPrefix = false := by
    rw [← Bool.not_eq_true, HasPrefix_iff]; exact htask
  have h2 := (HasPrefix_iff _ _).2 ho
  simp [lineFragment, writeLine, h1, h2, TrimPrefix]

theorem report_at_line (config : Config) (text to_ date : Str) (before after : List Str)
    (line : Str) (hlines : reportLines text = before ++ line :: after) :
    generateReport config text to_ date
      = reportHeader config to_ date ++ linesBody config before ++ lineFragment config line
          ++ linesBody config after ++ reportFooter config := by
  rw [generateReport_eq, hlines, linesBody_append, linesBody_cons]
  simp only [List.append_assoc]


theorem specLines_of_not_mem (s : Str) (h : (0x0A : UInt8) ∉ s) : specLines s = [s] := by
  induction s with
  | nil => rfl
  | cons b t ih =>
    simp only [List.mem_cons, not_or] at h
    simp [specLines, Ne.symm h.1, ih h.2]

theorem specLines_append (a b : Str) (h : (0x0A : UInt8) ∉ a) :
    specLines (a ++ 0x0A :: b) = a :: specLines b := by
  induction a with
  | nil => simp [specLines]
  | cons x t ih =>
    simp only [List.mem_cons, not_or] at h
    simp [specLines, Ne.symm h.1, ih h.2]

theorem IndexByte_some (s : Str) (c : UInt8) (m : Nat) (h : IndexByte s c = some m) :
    ∃ a b, s = a ++ c :: b ∧ c ∉ a ∧ a.length = m := by
  induction s generalizing m with
  | nil => simp [IndexByte] at h
  | cons x t ih =>
    by_cases hx : x = c
    · subst hx
      simp [IndexByte] at h
      exact ⟨[], t, by simp, by simp, by simpa using h⟩
    · simp only [IndexByte, hx, if_false, Option.map_eq_some'] at h
      obtain ⟨k, hk, rfl⟩ := h
      obtain ⟨a, b, rfl, hca, rfl⟩ := ih k hk
      exact ⟨x :: a, b, by simp, by simp [Ne.symm hx, hca], by simp⟩

theorem IndexByte_none (s : Str) (c : UInt8) (h : IndexByte s c = none) : c ∉ s := by
  induction s with
  | nil => simp
  | cons x t ih =>
    by_cases hx : x = c
    · subst hx
      simp [IndexByte] at h
    · simp only [IndexByte, hx, if_false, Option.map_eq_none'] at h
      simp [Ne.symm hx, ih h]

theorem genSplitLoop_newline (k : Nat) (s : Str) (hk : Count s 0x0A ≤ k) :
    genSplitLoop 0x0A k s = specLines s := by
  induction k generalizing s with
  | zero =>
    have h0 : Count s 0x0A = 0 := Nat.le_zero.mp hk
    rw [Count, List.count_eq_zero] at h0
    rw [specLines_of_not_mem s h0]
    rfl
  | succ k ih =>
    unfold genSplitLoop
    cases hi : IndexByte s 0x0A with
    | none => simp only []; rw [specLines_of_not_mem s (IndexByte_none s _ hi)]
    | some m =>
      obtain ⟨a, b, rfl, hca, rfl⟩ := IndexByte_some s _ m hi
      have hcount : Count b 0x0A ≤ k := by
        simp only [Count, List.count_append, List.count_cons_self,
          List.count_eq_zero.2 hca] at hk ⊢
        omega
      have ht : (a ++ 0x0A :: b).take a.length = a := List.take_left' rfl
      have hd : (a ++ 0x0A :: b).drop (a.length + 1) = b := by
        have : a ++ 0x0A :: b = (a ++ [0x0A]) ++ b := by simp
        rw [this]
        exact List.drop_left' (by simp)
      simp only []
      rw [specLines_append a b hca, ht, hd, ih b hcount]

theorem Split_newline (s : Str) : Split s 0x0A = specLines s := by
  have hle : Count s 0x0A ≤ s.length := List.count_le_length _ _
  unfold Split genSplit
  simp only [Int.reduceNeg, Int.neg_eq_zero, one_ne_zero, if_false, Int.neg_neg_iff_pos,
    zero_lt_one, if_true]
  rw [if_neg (by omega)]
  exact genSplitLoop_newline _ s (by omega)


theorem takeWhile_ne_append (a b : Str) (c : UInt8) (h : c ∉ a) :
    (a ++ c :: b).takeWhile (· ≠ c) = a := by
  induction a with
  | nil => simp
  | cons x t ih =>
    simp only [List.mem_cons, not_or] at h
    rw [List.cons_append, List.takeWhile_cons_of_pos (by simpa using Ne.symm h.1), ih h.2]

theorem dropWhile_ne_append (a b : Str) (c : UInt8) (h : c ∉ a) :
    (a ++ c :: b).dropWhile (· ≠ c) = c :: b := by
  induction a with
  | nil => simp
  | cons x t ih =>
    simp only [List.mem_cons, not_or] at h
    rw [List.cons_append, List.dropWhile_cons_of_pos (by simpa using Ne.symm h.1), ih h.2]

theorem takeWhile_ne_of_not_mem (a : Str) (c : UInt8) (h : c ∉ a) :
    a.takeWhile (· ≠ c) = a := by
  induction a with
  | nil => simp
  | cons x t ih =>
    simp only [List.mem_cons, not_or] at h
    rw [List.takeWhile_cons_of_pos (by simpa using Ne.symm h.1), ih h.2]

theorem lineFragment_eq_specFragment (config : Config) (line : Str) :
    lineFragment config line = specFragment config line := by
  unfold specFragment
  by_cases htask : config.Report.TaskPrefix <+: line
  · rw [if_pos htask]
    unfold specTaskFragment
    cases hi : IndexByte line 0x20 with
    | none =>
      have hsp := IndexByte_none line _ hi
      have ha : utf8 "</a></b></li>" = utf8 "</a>" ++ utf8 "</b></li>" := rfl
      rw [lineFragment_task_nospace config line htask hsp]
      simp only [if_neg hsp, takeWhile_ne_of_not_mem line _ hsp, ha, List.append_nil,
        List.append_assoc]
    | some m =>
      obtain ⟨a, b, rfl, hca, rfl⟩ := IndexByte_some line _ m hi
      have hs : utf8 " " = [0x20] := rfl
      have h := lineFragment_task_space config a b (by simpa [hs] using htask) hca
      rw [hs, List.append_assoc, List.singleton_append] at h
      have ha : utf8 "</a> " = utf8 "</a>" ++ utf8 " " := rfl
      have hmem : (0x20 : UInt8) ∈ a ++ 0x20 :: b := by simp
      rw [h]
      simp only [takeWhile_ne_append a b _ hca, dropWhile_ne_append a b _ hca, if_pos hmem,
        ha, hs, List.drop_succ_cons, List.drop_zero, List.append_assoc]
  · rw [if_neg htask]
    by_cases ho : OtherPrefix <+: line
    · rw [lineFragment_other config line htask ho]
      have : utf8 "OTHER " = OtherPrefix := rfl
      rw [this, if_pos ho]
    · have hou : utf8 "OTHER " = OtherPrefix := rfl
      have hcu : utf8 "#" = CommentPrefix := rfl
      rw [hou, hcu, if_neg ho]
      by_cases hc : CommentPrefix <+: line
      · rw [if_pos hc, lineFragment_comment config line htask hc]
      · rw [if_neg hc, lineFragment_default config line htask ho hc]

/-- C9: for every configuration, text, recipient and date the report is the header,
then one fragment per line of the trimmed text split on newlines (first match wins:
task item, `OTHER ` item, nothing for a `#` line, nested bullet), then the footer;
and the line `OTHER Helped onboard new teammate` gives
`<li>Helped onboard new teammate</li>`. -/
theorem report_shape (config : Config) (text to_ date : Str) :
    generateReport config text to_ date = specReport config text to_ date
      ∧ lineFragment exampleConfig (utf8 "OTHER Helped onboard new teammate")
        = utf8 "<li>Helped onboard new teammate</li>" := by
  refine ⟨?_, by decide⟩
  rw [generateReport_eq]
  unfold specReport reportHeader reportFooter reportLines linesBody
  rw [Split_newline]
  have : (lineFragment config) = (specFragment config) :=
    funext (lineFragment_eq_specFragment config)
  rw [this]

/-- C2 as stated fails: with an empty task prefix, or one that starts with `#`, the
line `#PROJ-99 stale ticket` starts with the comment marker and is still written, as
a task item, so the report is not the report without that line. -/
theorem comment_line_counterexample :
    reportLines (utf8 "#PROJ-99 stale ticket") = [] ++ utf8 "#PROJ-99 stale ticket" :: []
      ∧ CommentPrefix <+: utf8 "#PROJ-99 stale ticket"
      ∧ lineFragment noPrefixConfig (utf8 "#PROJ-99 stale ticket")
        = utf8 "<li><b><a href=\"https://tracker.example.com/browse/#PROJ-99\">#PROJ-99</a> stale ticket</b></li>"
      ∧ generateReport noPrefixConfig (utf8 "#PROJ-99 stale ticket") [] []
        ≠ reportHeader noPrefixConfig [] [] ++ linesBody noPrefixConfig []
            ++ linesBody noPrefixConfig [] ++ reportFooter noPrefixConfig
      ∧ generateReport hashPrefixConfig (utf8 "#PROJ-99 stale ticket") [] []
        ≠ reportHeader hashPrefixConfig [] [] ++ linesBody hashPrefixConfig []
            ++ linesBody hashPrefixConfig [] ++ reportFooter hashPrefixConfig := by
  refine ⟨by decide, by decide, by decide, by decide, by decide⟩

/-- C2, amended: a line of the trimmed text that starts with the comment marker `#`
and does not start with the task prefix contributes nothing: its fragment is empty
and the report is the header, the fragments of the other lines and the footer. -/
theorem comment_line_skipped (config : Config) (text to_ date : Str)
    (before after : List Str) (line : Str)
    (hlines : reportLines text = before ++ line :: after)
    (hc : CommentPrefix <+: line)
    (htask : ¬ config.Report.TaskPrefix <+: line) :
    lineFragment config line = []
      ∧ generateReport config text to_ date
        = reportHeader config to_ date ++ linesBody config before
            ++ linesBody config after ++ reportFooter config := by
  have hf := lineFragment_comment config line htask hc
  refine ⟨hf, ?_⟩
  rw [report_at_line config text to_ date before after line hlines, hf, List.append_nil]

/-- The example of C2 with the task prefix `PROJ-`: the comment line between two other
lines leaves no trace in the report. -/
theorem comment_line_skipped_witness :
    lineFragment exampleConfig (utf8 "#PROJ-99 stale ticket") = []
      ∧ generateReport exampleConfig (utf8 "a\n#PROJ-99 stale ticket\nb") [] []
        = reportHeader exampleConfig [] [] ++ linesBody exampleConfig [utf8 "a"]
            ++ linesBody exampleConfig [utf8 "b"] ++ reportFooter exampleConfig :=
  comment_line_skipped exampleConfig (utf8 "a\n#PROJ-99 stale ticket\nb") [] []
    [utf8 "a"] [utf8 "b"] (utf8 "#PROJ-99 stale ticket") (by decide) (by decide) (by decide)

/-- C7 as stated fails: in the text `PROJ-12 ` + newline + `x` the first line starts
with the task prefix and nothing follows its first space, and it is written with a
space between `</a>` and `</b>`. -/
theorem task_line_no_remainder_counterexample :
    reportLines (utf8 "PROJ-12 \nx") = [] ++ utf8 "PROJ-12 " :: [utf8 "x"]
      ∧ exampleConfig.Report.TaskPrefix <+: utf8 "PROJ-12 "
      ∧ utf8 "PROJ-12 " = utf8 "PROJ-12" ++ utf8 " " ++ []
      ∧ (0x20 : UInt8) ∉ utf8 "PROJ-12"
      ∧ lineFragment exampleConfig (utf8 "PROJ-12 ")
        = utf8 "<li><b><a href=\"https://tracker.example.com/browse/PROJ-12\">PROJ-12</a> </b></li>"
      ∧ lineFragment exampleConfig (utf8 "PROJ-12 ")
        ≠ utf8 "<li><b><a href=\"https://tracker.example.com/browse/PROJ-12\">PROJ-12</a></b></li>" := by
  refine ⟨by decide, by decide, by decide, by decide, by decide, by decide⟩

/-- C7, amended: a line of the trimmed text that starts with the task prefix and
contains no space is written as the linked item alone, with nothing between `</a>`
and `</b>`; a task line whose first space is its last byte keeps that space:
`</a> </b></li>`. -/
theorem task_line_without_space (config : Config) (text to_ date : Str)
    (before after : List Str) (line : Str)
    (hlines : reportLines text = before ++ line :: after)
    (hpre : config.Report.TaskPrefix <+: line)
    (hsp : (0x20 : UInt8) ∉ line) :
    lineFragment config line
        = utf8 "<li><b><a href=\"" ++ config.JIRA.Host ++ utf8 "browse/" ++ line
            ++ utf8 "\">" ++ line ++ utf8 "</a></b></li>"
      ∧ generateReport config text to_ date
        = reportHeader config to_ date ++ linesBody config before
            ++ (utf8 "<li><b><a href=\"" ++ config.JIRA.Host ++ utf8 "browse/" ++ line
              ++ utf8 "\">" ++ line ++ utf8 "</a></b></li>")
            ++ linesBody config after ++ reportFooter config
      ∧ lineFragment config (line ++ utf8 " ")
        = utf8 "<li><b><a href=\"" ++ config.JIRA.Host ++ utf8 "browse/" ++ line
            ++ utf8 "\">" ++ line ++ utf8 "</a> </b></li>" := by
  have hf := lineFragment_task_nospace config line hpre hsp
  refine ⟨hf, ?_, ?_⟩
  · rw [report_at_line config text to_ date before after line hlines, hf]
  · have hpre1 : config.Report.TaskPrefix <+: line ++ utf8 " " ++ [] := by
      rw [List.append_nil]
      exact hpre.trans (List.prefix_append _ _)
    have h := lineFragment_task_space config line [] hpre1 hsp
    simpa using h

/-- The example of C7: the line `PROJ-12` is written as the bare linked item. -/
theorem task_line_without_space_witness :
    lineFragment exampleConfig (utf8 "PROJ-12")
      = utf8 "<li><b><a href=\"https://tracker.example.com/browse/PROJ-12\">PROJ-12</a></b></li>" :=
  (task_line_without_space exampleConfig (utf8 "PROJ-12\nx") [] [] [] [utf8 "x"]
    (utf8 "PROJ-12") (by decide) (by decide) (by decide)).1.trans (by decide)

/-- C8: a line of the trimmed text that starts with none of the task prefix, `OTHER `
and `#` is written as `<ul type="circle"><li>` + line + `</li></ul>`; with a task
prefix that is not empty this holds of the empty line, and a text that is empty after
trimming gives a report with exactly one empty nested item. -/
theorem default_line (config : Config) (text to_ date : Str)
    (before after : List Str) (line : Str) :
    (reportLines text = before ++ line :: after →
      ¬ config.Report.TaskPrefix <+: line → ¬ OtherPrefix <+: line →
      ¬ CommentPrefix <+: line →
        lineFragment config line
            = utf8 "<ul type=\"circle\"><li>" ++ line ++ utf8 "</li></ul>"
          ∧ generateReport config text to_ date
            = reportHeader config to_ date ++ linesBody config before
                ++ (utf8 "<ul type=\"circle\"><li>" ++ line ++ utf8 "</li></ul>")
                ++ linesBody config after ++ reportFooter config)
      ∧ (config.Report.TaskPrefix ≠ [] →
          lineFragment config [] = utf8 "<ul type=\"circle\"><li></li></ul>")
      ∧ (TrimSpace text = [] → config.Report.TaskPrefix ≠ [] →
          generateReport config text to_ date
            = reportHeader config to_ date ++ utf8 "<ul type=\"circle\"><li></li></ul>"
                ++ reportFooter config) := by
  have hempty : config.Report.TaskPrefix ≠ [] →
      lineFragment config [] = utf8 "<ul type=\"circle\"><li></li></ul>" := by
    intro hne
    have h := lineFragment_default config []
      (by rw [List.prefix_nil]; exact hne) (by decide) (by decide)
    rw [h]
    rfl
  refine ⟨?_, hempty, ?_⟩
  · intro hlines htask ho hc
    have hf := lineFragment_default config line htask ho hc
    refine ⟨hf, ?_⟩
    rw [report_at_line config text to_ date before after line hlines, hf]
  · intro htrim hne
    have hl : reportLines text = [] ++ [] :: [] := by
      unfold reportLines
      rw [htrim]
      rfl
    rw [report_at_line config text to_ date [] [] [] hl, hempty hne]
    simp [linesBody]

/-- The examples of C8: `Reviewed three pull requests`, the empty line, and a text of
white space only. -/
theorem default_line_witness :
    lineFragment exampleConfig (utf8 "Reviewed three pull requests")
        = utf8 "<ul type=\"circle\"><li>Reviewed three pull requests</li></ul>"
      ∧ lineFragment exampleConfig [] = utf8 "<ul type=\"circle\"><li></li></ul>"
      ∧ generateReport exampleConfig (utf8 " \n\t ") [] []
        = reportHeader exampleConfig [] [] ++ utf8 "<ul type=\"circle\"><li></li></ul>"
            ++ reportFooter exampleConfig :=
  ⟨((default_line exampleConfig (utf8 "Reviewed three pull requests") [] [] [] []
      (utf8 "Reviewed three pull requests")).1
      (by decide) (by decide) (by decide) (by decide)).1.trans (by decide),
   (default_line exampleConfig (utf8 " \n\t ") [] [] [] [] []).2.1 (by decide),
   (default_line exampleConfig (utf8 " \n\t ") [] [] [] [] []).2.2 (by decide) (by decide)⟩

theorem pairLoop_even (ms : List Submatch) (fuel i : Nat) (acc : List Str) (k : Nat)
    (hlen : ms.length = i + 2 * k) (hfuel : k < fuel) :
    pairLoop ms fuel i acc = some (.ok (acc ++ pairUp (ms.drop i))) := by
  induction fuel generalizing i acc k with
  | zero => omega
  | succ fuel ih =>
    unfold pairLoop
    by_cases hi : i < ms.length
    · rw [if_pos hi]
      have h1 : i + 1 < ms.length := by omega
      obtain ⟨k1, rfl⟩ : ∃ k1, k = k1 + 1 := ⟨k - 1, by omega⟩
      have hd : ms.drop i = ms.get ⟨i, hi⟩ :: ms.get ⟨i + 1, h1⟩ :: ms.drop (i + 2) := by
        rw [List.drop_eq_getElem_cons hi, List.drop_eq_getElem_cons h1]
        rfl
      rw [List.get?_eq_get hi, List.get?_eq_get h1]
      simp only []
      rw [ih (i + 2) _ k1 (by omega) (by omega), hd]
      simp [pairUp]
    · rw [if_neg hi]
      have : ms.drop i = [] := List.drop_eq_nil_of_le (by omega)
      simp [this, pairUp]

theorem pairLoop_odd (ms : List Submatch) (fuel i : Nat) (acc : List Str) (k : Nat)
    (hlen : ms.length = i + 2 * k + 1) (hfuel : k < fuel) :
    pairLoop ms fuel i acc = some (.panic ms.length ms.length) := by
  induction fuel generalizing i acc k with
  | zero => omega
  | succ fuel ih =>
    unfold pairLoop
    have hi : i < ms.length := by omega
    rw [if_pos hi, List.get?_eq_get hi]
    simp only []
    by_cases h1 : i + 1 < ms.length
    · obtain ⟨k1, rfl⟩ : ∃ k1, k = k1 + 1 := ⟨k - 1, by omega⟩
      rw [List.get?_eq_get h1]
      simp only []
      exact ih (i + 2) _ k1 (by omega) (by omega)
    · have hk : i + 1 = ms.length := by omega
      rw [List.get?_eq_none.2 (by omega)]
      simp only [hk]

theorem pairUp_length (ms : List Submatch) (k : Nat) (h : ms.length = 2 * k) :
    (pairUp ms).length = k := by
  induction k generalizing ms with
  | zero =>
    have : ms = [] := List.length_eq_zero.mp (by omega)
    subst this; rfl
  | succ k ih =>
    match ms, h with
    | a :: b :: rest, h =>
      simp only [pairUp, List.length_cons]
      rw [ih rest (by simp only [List.length_cons] at h; omega)]

theorem pairUp_get (ms : List Submatch) (i : Nat) (a b : Submatch)
    (ha : ms.get? (2 * i) = some a) (hb : ms.get? (2 * i + 1) = some b) :
    (pairUp ms).get? i = some (a.group1 ++ utf8 " " ++ b.group1) := by
  induction i generalizing ms with
  | zero =>
    match ms, ha, hb with
    | x :: y :: rest, ha, hb =>
      simp at ha hb
      subst ha hb
      simp [pairUp]
  | succ i ih =>
    match ms, ha, hb with
    | [], ha, _ => simp at ha
    | [x], ha, _ => simp [Nat.mul_succ] at ha
    | x :: y :: rest, ha, hb =>
      have e1 : 2 * (i + 1) = 2 * i + 1 + 1 := by ring
      have e2 : 2 * (i + 1) + 1 = 2 * i + 1 + 1 + 1 := by ring
      rw [e1, List.get?_cons_succ, List.get?_cons_succ] at ha
      rw [e2, List.get?_cons_succ, List.get?_cons_succ] at hb
      simp only [pairUp, List.get?_cons_succ]
      exact ih rest ha hb

theorem getJIRATasks_of_even (ms : List Submatch) (k : Nat) (hlen : ms.length = 2 * k) :
    getJIRATasks (.ok ms) = some (.ok (pairUp ms)) := by
  unfold getJIRATasks
  simp only []
  rw [pairLoop_even ms _ 0 [] k (by omega) (by omega)]
  simp

/-- C5: for matches `m_0 .. m_(2k-1)` in document order, `getJIRATasks` returns a list
of exactly `k` entries whose `i`-th entry is the link text of `m_(2i)`, a space, and
the link text of `m_(2i+1)`. -/
theorem fetch_pairing (ms : List Submatch) (k : Nat) (hlen : ms.length = 2 * k) :
    ∃ tasks, getJIRATasks (.ok ms) = some (.ok tasks) ∧ tasks.length = k
      ∧ ∀ i, i < k → ∃ a b, ms.get? (2 * i) = some a ∧ ms.get? (2 * i + 1) = some b
          ∧ tasks.get? i = some (a.group1 ++ utf8 " " ++ b.group1) := by
  refine ⟨pairUp ms, getJIRATasks_of_even ms k hlen, pairUp_length ms k hlen, ?_⟩
  intro i hi
  have h0 : 2 * i < ms.length := by omega
  have h1 : 2 * i + 1 < ms.length := by omega
  exact ⟨ms.get ⟨_, h0⟩, ms.get ⟨_, h1⟩, List.get?_eq_get h0, List.get?_eq_get h1,
    pairUp_get ms i _ _ (List.get?_eq_get h0) (List.get?_eq_get h1)⟩

/-- The example of C5: the matches `A1`, `Title A`, `B2`, `Title B` give the two
entries `A1 Title A` and `B2 Title B`. -/
theorem fetch_pairing_witness :
    getJIRATasks (.ok exampleMatches) = some (.ok [utf8 "A1 Title A", utf8 "B2 Title B"])
      ∧ ∃ tasks, getJIRATasks (.ok exampleMatches) = some (.ok tasks) ∧ tasks.length = 2
        ∧ ∀ i, i < 2 → ∃ a b, exampleMatches.get? (2 * i) = some a
            ∧ exampleMatches.get? (2 * i + 1) = some b
            ∧ tasks.get? i = some (a.group1 ++ utf8 " " ++ b.group1) :=
  ⟨by decide, fetch_pairing exampleMatches 2 (by decide)⟩

/-- C10: the pairing loop returns a list, all its accesses `matches[i]` and
`matches[i+1]` being in range, exactly when the number of matches is even; with an
odd number of matches it panics on the access `matches[len]`, out of range. -/
theorem pairing_index_safety (ms : List Submatch) :
    ((∃ tasks, getJIRATasks (.ok ms) = some (.ok tasks)) ↔ Even ms.length)
      ∧ (Odd ms.length →
          getJIRATasks (.ok ms) = some (.panic ms.length ms.length)) := by
  have hodd : Odd ms.length →
      getJIRATasks (.ok ms) = some (.panic ms.length ms.length) := by
    rintro ⟨k, hk⟩
    unfold getJIRATasks
    simp only []
    exact pairLoop_odd ms _ 0 [] k (by omega) (by omega)
  refine ⟨⟨?_, ?_⟩, hodd⟩
  · rintro ⟨tasks, h⟩
    by_contra hne
    rw [Nat.not_even_iff_odd] at hne
    rw [hodd hne] at h
    simp at h
  · rintro ⟨k, hk⟩
    exact ⟨pairUp ms, getJIRATasks_of_even ms k (by omega)⟩

/-- The example of C10: with the three matches `A1`, `Title A`, `B2` the fetch panics
with index 3 out of range for length 3. -/
theorem pairing_index_safety_witness :
    getJIRATasks (.ok (exampleMatches.take 3)) = some (.panic 3 3) :=
  (pairing_index_safety (exampleMatches.take 3)).2 (by decide)


theorem MaxScanTokenSize_pos : 0 < MaxScanTokenSize := by decide

theorem specLines_ne_nil (s : Str) : specLines s ≠ [] := by
  cases s with
  | nil => simp [specLines]
  | cons c t =>
    unfold specLines
    split_ifs
    · simp
    · split <;> simp

theorem fileLines_nil : fileLines [] = [] := by decide

theorem fileLines_of_not_mem (s : Str) (hne : s ≠ []) (h : (0x0A : UInt8) ∉ s) :
    fileLines s = [dropCR s] := by
  unfold fileLines
  simp [specLines_of_not_mem s h, hne]

theorem fileLines_append (a b : Str) (h : (0x0A : UInt8) ∉ a) :
    fileLines (a ++ 0x0A :: b) = dropCR a :: fileLines b := by
  unfold fileLines
  have hne := specLines_ne_nil b
  simp only [specLines_append a b h, List.getLast?_cons_cons]
  obtain ⟨x, xs, hx⟩ := List.exists_cons_of_ne_nil hne
  rw [hx]
  simp only [List.getLast?_cons_cons, List.dropLast_cons₂]
  split_ifs <;> simp

theorem Scan_nil : Scan [] = .done := by decide

theorem Scan_of_not_mem (s : Str) (hne : s ≠ []) (h : (0x0A : UInt8) ∉ s)
    (hlen : s.length < MaxScanTokenSize) : Scan s = .token (dropCR s) [] := by
  have hl : s.length ≠ 0 := by simpa using hne
  unfold Scan ScanLines
  simp [List.take_of_length_le (le_of_lt hlen), hlen, hl, IndexByte_of_not_mem s _ h]

theorem Scan_append (a b : Str) (h : (0x0A : UInt8) ∉ a)
    (hlen : a.length < MaxScanTokenSize) : Scan (a ++ 0x0A :: b) = .token (dropCR a) b := by
  have ht : (a ++ 0x0A :: b).take MaxScanTokenSize
      = a ++ 0x0A :: b.take (MaxScanTokenSize - a.length - 1) := by
    rw [List.take_append_eq_append_take, List.take_of_length_le (le_of_lt hlen)]
    obtain ⟨k, hk⟩ : ∃ k, MaxScanTokenSize - a.length = k + 1 :=
      ⟨MaxScanTokenSize - a.length - 1, by omega⟩
    rw [hk, List.take_succ_cons]
    simp
  have hd : (a ++ 0x0A :: b).drop (a.length + 1) = b := by
    have : a ++ 0x0A :: b = (a ++ [0x0A]) ++ b := by simp
    rw [this]
    exact List.drop_left' (by simp)
  unfold Scan ScanLines
  simp only [ht, IndexByte_append _ _ _ h, hd]
  simp


theorem purged_nil : purged [] = [] := by decide

theorem purged_of_not_mem (s : Str) (hne : s ≠ []) (h : (0x0A : UInt8) ∉ s) :
    purged s = if HasPrefix (dropCR s) CommentPrefix then [] else dropCR s ++ utf8 "\n" := by
  have hc : utf8 "#" = CommentPrefix := rfl
  unfold purged
  rw [fileLines_of_not_mem s hne h, hc]
  by_cases hp : CommentPrefix <+: dropCR s
  · simp [hp, (HasPrefix_iff _ _).2 hp]
  · have : HasPrefix (dropCR s) CommentPrefix = false := by
      rw [← Bool.not_eq_true, HasPrefix_iff]; exact hp
    simp [hp, this]

theorem purged_append (a b : Str) (h : (0x0A : UInt8) ∉ a) :
    purged (a ++ 0x0A :: b)
      = (if HasPrefix (dropCR a) CommentPrefix then [] else dropCR a ++ utf8 "\n")
          ++ purged b := by
  have hc : utf8 "#" = CommentPrefix := rfl
  unfold purged
  rw [fileLines_append a b h, hc]
  by_cases hp : CommentPrefix <+: dropCR a
  · simp [hp, (HasPrefix_iff _ _).2 hp]
  · have : HasPrefix (dropCR a) CommentPrefix = false := by
      rw [← Bool.not_eq_true, HasPrefix_iff]; exact hp
    simp [hp, this]

theorem scanLoop_eq (fuel : Nat) (rest builder : Str) (hfit : LinesFit rest)
    (hfuel : rest.length < fuel) :
    scanLoop fuel rest builder = some (builder ++ purged rest, none) := by
  induction fuel generalizing rest builder with
  | zero => omega
  | succ fuel ih =>
    unfold scanLoop
    by_cases hnil : rest = []
    · subst hnil
      simp [Scan_nil, purged_nil]
    · cases hi : IndexByte rest 0x0A with
      | none =>
        have hmem := IndexByte_none rest _ hi
        have hlen : rest.length < MaxScanTokenSize :=
          hfit rest (by rw [specLines_of_not_mem rest hmem]; simp)
        have hpos : 0 < rest.length := List.length_pos.2 hnil
        have hnilfit : LinesFit [] := by
          intro l hl
          simp [specLines] at hl
          subst hl
          exact MaxScanTokenSize_pos
        rw [Scan_of_not_mem rest hnil hmem hlen, purged_of_not_mem rest hnil hmem]
        simp only []
        by_cases hp : HasPrefix (dropCR rest) CommentPrefix = true
        · simp [hp, ih [] builder hnilfit (by simp; omega), purged_nil]
        · simp only [Bool.not_eq_true] at hp
          simp [hp, ih [] _ hnilfit (by simp; omega), purged_nil]
      | some m =>
        obtain ⟨a, b, rfl, hca, rfl⟩ := IndexByte_some rest _ m hi
        have hlen : a.length < MaxScanTokenSize :=
          hfit a (by rw [specLines_append a b hca]; simp)
        have hbfit : LinesFit b := by
          intro l hl
          exact hfit l (by rw [specLines_append a b hca]; simp [hl])
        have hb : b.length < fuel := by
          simp only [List.length_append, List.length_cons] at hfuel
          omega
        rw [Scan_append a b hca hlen, purged_append a b hca]
        simp only []
        by_cases hp : HasPrefix (dropCR a) CommentPrefix = true
        · simp [hp, ih b builder hbfit hb]
        · simp only [Bool.not_eq_true] at hp
          simp [hp, ih b _ hbfit hb]

theorem cleanInpulFile_ok (content : Str) (hfit : LinesFit content) :
    cleanInpulFile noFaults (some content) = some (none, some (purged content)) := by
  unfold cleanInpulFile
  simp [noFaults, scanLoop_eq _ content [] hfit (Nat.lt_succ_self _)]


theorem LinesFit_nil : LinesFit [] := by
  intro l hl
  simp [specLines] at hl
  subst hl
  exact MaxScanTokenSize_pos

theorem scanLoop_tooLong (fuel : Nat) (rest builder : Str) (hfit : ¬ LinesFit rest)
    (hfuel : rest.length < fuel) :
    ∃ b, scanLoop fuel rest builder = some (b, some ErrTooLong) := by
  induction fuel generalizing rest builder with
  | zero => omega
  | succ fuel ih =>
    unfold scanLoop
    cases hi : IndexByte rest 0x0A with
    | none =>
      have hmem := IndexByte_none rest _ hi
      have hlen : ¬ rest.length < MaxScanTokenSize := by
        intro h
        apply hfit
        intro l hl
        rw [specLines_of_not_mem rest hmem] at hl
        simp at hl
        subst hl
        exact h
      have hbuf : (0x0A : UInt8) ∉ rest.take MaxScanTokenSize :=
        fun h => hmem (List.mem_of_mem_take h)
      have hs : Scan rest = .tooLong := by
        unfold Scan ScanLines
        simp [hlen, IndexByte_of_not_mem _ _ hbuf]
      rw [hs]
      exact ⟨builder, rfl⟩
    | some m =>
      obtain ⟨a, b, rfl, hca, rfl⟩ := IndexByte_some rest _ m hi
      by_cases hlen : a.length < MaxScanTokenSize
      · have hbfit : ¬ LinesFit b := by
          intro hb
          apply hfit
          intro l hl
          rw [specLines_append a b hca] at hl
          simp only [List.mem_cons] at hl
          rcases hl with rfl | hl
          · exact hlen
          · exact hb l hl
        have hb : b.length < fuel := by
          simp only [List.length_append, List.length_cons] at hfuel
          omega
        rw [Scan_append a b hca hlen]
        simp only []
        split_ifs
        · exact ih b _ hbfit hb
        · exact ih b _ hbfit hb
      · have hbuf : (0x0A : UInt8) ∉ (a ++ 0x0A :: b).take MaxScanTokenSize := by
          rw [List.take_append_of_le_length (by omega)]
          exact fun h => hca (List.mem_of_mem_take h)
        have hl : ¬ (a ++ 0x0A :: b).length < MaxScanTokenSize := by
          simp only [List.length_append, List.length_cons]
          omega
        have hs : Scan (a ++ 0x0A :: b) = .tooLong := by
          unfold Scan ScanLines
          simp only [hl, IndexByte_of_not_mem _ _ hbuf]
          simp
        rw [hs]
        exact ⟨builder, rfl⟩

theorem cleanInpulFile_tooLong (content : Str) (hfit : ¬ LinesFit content) :
    cleanInpulFile noFaults (some content) = some (some ErrTooLong, some content) := by
  obtain ⟨b, hb⟩ := scanLoop_tooLong (content.length + 1) content [] hfit (Nat.lt_succ_self _)
  unfold cleanInpulFile
  simp [noFaults, hb]

theorem longLine_not_mem : (0x0A : UInt8) ∉ longLine := by
  intro hm
  exact absurd (List.eq_of_mem_replicate hm) (by decide)

theorem longLine_not_fit (b : Str) : ¬ LinesFit (longLine ++ 0x0A :: b) := by
  intro h
  have := h longLine (by rw [specLines_append _ _ longLine_not_mem]; simp)
  simp [longLine] at this

theorem longLine_alone_not_fit : ¬ LinesFit longLine := by
  intro h
  have := h longLine (by rw [specLines_of_not_mem _ longLine_not_mem]; simp)
  simp [longLine] at this

/-- C3 as stated fails: the content `a` CR LF `b` has no comment line, keeping every
line with its terminator would leave it unchanged, and the purge writes `a` LF `b`
LF. -/
theorem purge_terminators_counterexample :
    cleanInpulFile noFaults (some (utf8 "a\r\nb")) = some (none, some (utf8 "a\nb\n"))
      ∧ keptWithTerminators (utf8 "a\r\nb") = utf8 "a\r\nb"
      ∧ utf8 "a\nb\n" ≠ utf8 "a\r\nb" := by
  refine ⟨by decide, by decide, by decide⟩

/-- C3, amended: when no line of the old content reaches the 64 KiB limit of the
scanner, the new content is the lines that do not start with `#`, in order, each
without its newline and without one carriage return at its end, if it has one, and
followed by one newline byte; when a line reaches the limit the purge returns the
error of the scanner and leaves the file as it is; a missing file is created empty. -/
theorem purge_content (content : Str) :
    (LinesFit content →
        cleanInpulFile noFaults (some content) = some (none, some (purged content)))
      ∧ (¬ LinesFit content →
        cleanInpulFile noFaults (some content) = some (some ErrTooLong, some content))
      ∧ cleanInpulFile noFaults none = some (none, some []) := by
  exact ⟨cleanInpulFile_ok content, cleanInpulFile_tooLong content, by decide⟩

/-- The examples of C3: a draft with CR LF, comment lines, an empty line and a last
line without terminator; and a draft of one line of 65536 bytes. -/
theorem purge_content_witness :
    cleanInpulFile noFaults (some (utf8 "done\r\n#A1 Title A\nOTHER x\n\n#B2 Title B\nlast"))
        = some (none, some (utf8 "done\nOTHER x\n\nlast\n"))
      ∧ cleanInpulFile noFaults (some longLine) = some (some ErrTooLong, some longLine) := by
  have hfit : LinesFit (utf8 "done\r\n#A1 Title A\nOTHER x\n\n#B2 Title B\nlast") := by
    intro l hl
    have h : specLines (utf8 "done\r\n#A1 Title A\nOTHER x\n\n#B2 Title B\nlast")
        = [utf8 "done\r", utf8 "#A1 Title A", utf8 "OTHER x", [], utf8 "#B2 Title B",
            utf8 "last"] := by decide
    rw [h] at hl
    simp only [List.mem_cons, List.mem_singleton, List.not_mem_nil, or_false] at hl
    rcases hl with rfl | rfl | rfl | rfl | rfl | rfl <;> decide
  exact ⟨((purge_content _).1 hfit).trans (by decide),
    (purge_content _).2.1 longLine_alone_not_fit⟩

theorem newline_bytes : utf8 "\n" = [0x0A] := by decide

theorem terminated_nil : terminated [] = [] := rfl

theorem terminated_cons (l : Str) (ls : List Str) :
    terminated (l :: ls) = l ++ 0x0A :: terminated ls := by
  simp [terminated, newline_bytes]

theorem terminated_append (a b : List Str) :
    terminated (a ++ b) = terminated a ++ terminated b := by
  simp [terminated]

theorem purged_eq_terminated (c : Str) :
    purged c = terminated ((fileLines c).filter (fun l => !decide (utf8 "#" <+: l))) := rfl

theorem dumped_eq_terminated (t : List Str) :
    dumped t = terminated (t.map (utf8 "#" ++ ·)) := by
  simp [dumped, terminated, List.map_map, Function.comp_def]

theorem specLines_terminated (ls : List Str) (h : ∀ l ∈ ls, (0x0A : UInt8) ∉ l) :
    specLines (terminated ls) = ls ++ [[]] := by
  induction ls with
  | nil => rfl
  | cons l ls ih =>
    rw [terminated_cons, specLines_append _ _ (h l (by simp)),
      ih (fun x hx => h x (by simp [hx]))]
    rfl

theorem fileLines_terminated (ls : List Str) (h : ∀ l ∈ ls, (0x0A : UInt8) ∉ l) :
    fileLines (terminated ls) = ls.map dropCR := by
  unfold fileLines
  simp [specLines_terminated ls h]

theorem specLines_not_mem (s : Str) : ∀ l ∈ specLines s, (0x0A : UInt8) ∉ l := by
  induction s with
  | nil => simp [specLines]
  | cons c t ih =>
    unfold specLines
    split_ifs with hc
    · intro l hl
      simp only [List.mem_cons] at hl
      rcases hl with rfl | hl
      · simp
      · exact ih l hl
    · have hne := specLines_ne_nil t
      obtain ⟨x, xs, hx⟩ := List.exists_cons_of_ne_nil hne
      rw [hx] at ih ⊢
      intro l hl
      simp only [List.mem_cons] at hl
      rcases hl with rfl | hl
      · have := ih x (by simp)
        simp [Ne.symm hc, this]
      · exact ih l (by simp [hl])

theorem mem_fileLines (c l : Str) (h : l ∈ fileLines c) :
    ∃ p ∈ specLines c, l = dropCR p := by
  unfold fileLines at h
  simp only [List.mem_map] at h
  obtain ⟨p, hp, rfl⟩ := h
  refine ⟨p, ?_, rfl⟩
  split_ifs at hp
  · exact List.mem_of_mem_dropLast hp
  · exact hp

theorem dropCR_cases (p : Str) :
    (dropCR p = p ∧ p.getLast? ≠ some 0x0D) ∨ p = dropCR p ++ [0x0D] := by
  unfold dropCR
  by_cases h : p.getLast? = some 0x0D
  · right
    rw [if_pos h]
    rcases List.eq_nil_or_concat p with rfl | ⟨q, x, rfl⟩
    · simp at h
    · simp at h
      subst h
      simp
  · left
    rw [if_neg h]
    exact ⟨rfl, h⟩

theorem dropCR_length_le (p : Str) : (dropCR p).length ≤ p.length := by
  rcases dropCR_cases p with h | h
  · rw [h.1]
  · conv_rhs => rw [h]
    simp

theorem dropCR_not_mem (p : Str) (c : UInt8) (h : c ∉ p) : c ∉ dropCR p := by
  rcases dropCR_cases p with h1 | h1
  · rw [h1.1]; exact h
  · intro hc
    apply h
    rw [h1]
    simp [hc]

theorem comment_dropCR (p : Str) : utf8 "#" <+: dropCR p ↔ utf8 "#" <+: p := by
  have hb : utf8 "#" = [0x23] := by decide
  rw [hb]
  rcases dropCR_cases p with h | h
  · rw [h.1]
  · generalize dropCR p = q at h
    subst h
    cases q with
    | nil => simp
    | cons y q => simp [List.prefix_cons_inj, List.cons_prefix_cons]

theorem dropCR_dropCR (p : Str) (h : ¬ [0x0D, 0x0D] <:+ p) : dropCR (dropCR p) = dropCR p := by
  rcases dropCR_cases p with h1 | h1
  · rw [h1.1, h1.1]
  · rcases dropCR_cases (dropCR p) with h2 | h2
    · exact h2.1
    · exfalso
      apply h
      rw [h1, h2]
      exact ⟨dropCR (dropCR p), by simp⟩

theorem dumpLoop_noFaults (t : List Str) (k : Nat) (content : Str) :
    dumpLoop noFaults t k content = (none, content ++ dumped t) := by
  induction t generalizing k content with
  | nil => simp [dumpLoop, dumped]
  | cons jt t ih =>
    have hc : CommentPrefix = utf8 "#" := rfl
    simp only [dumpLoop, noFaults, dumped] at ih ⊢
    rw [ih]
    simp [hc]

theorem dumpJIRATasks_noFaults (t : List Str) (content : Str) :
    dumpJIRATasks noFaults t (some content) = (none, some (content ++ dumped t)) := by
  unfold dumpJIRATasks
  rw [show noFaults.openAppend = none from rfl]
  simp [dumpLoop_noFaults]

theorem LinesFit_terminated (ls : List Str) (hn : ∀ l ∈ ls, (0x0A : UInt8) ∉ l)
    (h : ∀ l ∈ ls, l.length < MaxScanTokenSize) : LinesFit (terminated ls) := by
  intro l hl
  rw [specLines_terminated ls hn] at hl
  simp only [List.mem_append, List.mem_singleton] at hl
  rcases hl with hl | rfl
  · exact h l hl
  · exact MaxScanTokenSize_pos


theorem purgeThenAppend_tooLong (t : List Str) (content : Str) (hfit : ¬ LinesFit content) :
    purgeThenAppend noFaults t (some content) = some (some ErrTooLong, some content) := by
  unfold purgeThenAppend
  rw [cleanInpulFile_tooLong content hfit]

/-- C4 as stated fails: with a fetched issue whose title holds a newline, the second
run keeps the second half of the title as a line of the user and the content grows;
with a line that ends in two carriage returns, each run drops one of them; with a
line of 65536 bytes the purge fails and the fetched issue is not written. -/
theorem purge_append_twice_counterexample :
    purgeThenAppend noFaults [utf8 "A1 Title\nmore"] (some [])
        = some (none, some (utf8 "#A1 Title\nmore\n"))
      ∧ purgeThenAppend noFaults [utf8 "A1 Title\nmore"] (some (utf8 "#A1 Title\nmore\n"))
        = some (none, some (utf8 "more\n#A1 Title\nmore\n"))
      ∧ utf8 "more\n#A1 Title\nmore\n" ≠ utf8 "#A1 Title\nmore\n"
      ∧ purgeThenAppend noFaults [] (some (utf8 "x\r\r\n")) = some (none, some (utf8 "x\r\n"))
      ∧ purgeThenAppend noFaults [] (some (utf8 "x\r\n")) = some (none, some (utf8 "x\n"))
      ∧ utf8 "x\n" ≠ utf8 "x\r\n"
      ∧ purgeThenAppend noFaults [utf8 "A1 Title A"] (some (longLine ++ 0x0A :: []))
        = some (some ErrTooLong, some (longLine ++ 0x0A :: [])) := by
  refine ⟨by decide, by decide, by decide, by decide, by decide, by decide, ?_⟩
  exact purgeThenAppend_tooLong _ _ (longLine_not_fit [])

theorem purgeThenAppend_noFaults (c : Str) (t : List Str) (hfit : LinesFit c) :
    purgeThenAppend noFaults t (some c) = some (none, some (purged c ++ dumped t)) := by
  unfold purgeThenAppend
  rw [cleanInpulFile_ok c hfit]
  simp [dumpJIRATasks_noFaults]

/-- C4, amended: when no line of `c` reaches the limit of the scanner, no line of `c`
other than a comment line ends in two carriage returns, and no fetched issue holds a
newline or reaches the limit, the first run and a second run on its result both leave
the content `purged c ++ dumped t`: the lines of `c` that are not comments, in order,
then the lines `#` + `t_i`, in order, each followed by a newline, and nothing else. -/
theorem purge_append_twice (c : Str) (t : List Str)
    (hfit : LinesFit c)
    (hcr : ∀ l ∈ specLines c, ¬ utf8 "#" <+: l → ¬ [0x0D, 0x0D] <:+ l)
    (ht : ∀ jt ∈ t, (0x0A : UInt8) ∉ jt ∧ jt.length + 1 < MaxScanTokenSize) :
    purgeThenAppend noFaults t (some c) = some (none, some (purged c ++ dumped t))
      ∧ purgeThenAppend noFaults t (some (purged c ++ dumped t))
        = some (none, some (purged c ++ dumped t))
      ∧ specLines (purged c ++ dumped t)
        = (fileLines c).filter (fun l => !decide (utf8 "#" <+: l))
            ++ t.map (utf8 "#" ++ ·) ++ [[]] := by
  have hb : utf8 "#" = [0x23] := by decide
  -- the lines of the file after one run
  have hkeptn : ∀ l ∈ (fileLines c).filter (fun l => !decide (utf8 "#" <+: l)),
      (0x0A : UInt8) ∉ l := by
    intro l hl
    obtain ⟨p, hp, rfl⟩ := mem_fileLines c l (List.mem_of_mem_filter hl)
    exact dropCR_not_mem p _ (specLines_not_mem c p hp)
  have hdumpn : ∀ l ∈ t.map (utf8 "#" ++ ·), (0x0A : UInt8) ∉ l := by
    intro l hl
    simp only [List.mem_map] at hl
    obtain ⟨jt, hjt, rfl⟩ := hl
    have := (ht jt hjt).1
    simp [hb, this]
  have halln : ∀ l ∈ (fileLines c).filter (fun l => !decide (utf8 "#" <+: l))
      ++ t.map (utf8 "#" ++ ·), (0x0A : UInt8) ∉ l := by
    intro l hl
    rcases List.mem_append.1 hl with h | h
    · exact hkeptn l h
    · exact hdumpn l h
  have hallfit : ∀ l ∈ (fileLines c).filter (fun l => !decide (utf8 "#" <+: l))
      ++ t.map (utf8 "#" ++ ·), l.length < MaxScanTokenSize := by
    intro l hl
    rcases List.mem_append.1 hl with h | h
    · obtain ⟨p, hp, rfl⟩ := mem_fileLines c l (List.mem_of_mem_filter h)
      exact lt_of_le_of_lt (dropCR_length_le p) (hfit p hp)
    · simp only [List.mem_map] at h
      obtain ⟨jt, hjt, rfl⟩ := h
      have := (ht jt hjt).2
      simp only [hb, List.singleton_append, List.length_cons]
      exact this
  have hcontent : purged c ++ dumped t
      = terminated ((fileLines c).filter (fun l => !decide (utf8 "#" <+: l))
          ++ t.map (utf8 "#" ++ ·)) := by
    rw [terminated_append, ← dumped_eq_terminated, ← purged_eq_terminated]
  have hfit1 : LinesFit (purged c ++ dumped t) := by
    rw [hcontent]
    exact LinesFit_terminated _ halln hallfit
  -- purging the file again gives the same kept lines
  have hagain : purged (purged c ++ dumped t) = purged c := by
    rw [hcontent, purged_eq_terminated, fileLines_terminated _ halln, List.map_append,
      List.filter_append]
    have h1 : (((fileLines c).filter (fun l => !decide (utf8 "#" <+: l))).map dropCR).filter
        (fun l => !decide (utf8 "#" <+: l))
        = (fileLines c).filter (fun l => !decide (utf8 "#" <+: l)) := by
      have hid : ((fileLines c).filter (fun l => !decide (utf8 "#" <+: l))).map dropCR
          = (fileLines c).filter (fun l => !decide (utf8 "#" <+: l)) := by
        conv_rhs => rw [← List.map_id ((fileLines c).filter _)]
        apply List.map_congr_left
        intro l hl
        have hnc : ¬ utf8 "#" <+: l := by simpa using (List.mem_filter.1 hl).2
        obtain ⟨p, hp, rfl⟩ := mem_fileLines c l (List.mem_of_mem_filter hl)
        have hpc : ¬ utf8 "#" <+: p := fun h => hnc ((comment_dropCR p).2 h)
        simpa using dropCR_dropCR p (hcr p hp hpc)
      rw [hid, List.filter_filter]
      simp
    have h2 : ((t.map (utf8 "#" ++ ·)).map dropCR).filter
        (fun l => !decide (utf8 "#" <+: l)) = [] := by
      rw [List.filter_eq_nil_iff]
      intro l hl
      simp only [List.mem_map] at hl
      obtain ⟨x, ⟨jt, -, rfl⟩, rfl⟩ := hl
      have : utf8 "#" <+: dropCR (utf8 "#" ++ jt) :=
        (comment_dropCR _).2 (List.prefix_append _ _)
      simp [this]
    rw [h1, h2, List.append_nil, ← purged_eq_terminated]
  refine ⟨purgeThenAppend_noFaults c t hfit, ?_, ?_⟩
  · rw [purgeThenAppend_noFaults _ t hfit1, hagain]
  · rw [hcontent, specLines_terminated _ halln]


/-- The example of C4: a draft with a stale comment line, and two fetched issues. -/
theorem purge_append_twice_witness :
    purgeThenAppend noFaults [utf8 "A1 Title A", utf8 "B2 Title B"] (some exampleDraft)
        = some (none, some (utf8 "done\nOTHER x\n#A1 Title A\n#B2 Title B\n"))
      ∧ purgeThenAppend noFaults [utf8 "A1 Title A", utf8 "B2 Title B"]
          (some (utf8 "done\nOTHER x\n#A1 Title A\n#B2 Title B\n"))
        = some (none, some (utf8 "done\nOTHER x\n#A1 Title A\n#B2 Title B\n")) := by
  have hs : specLines exampleDraft = [utf8 "done\r", utf8 "#OLD-1 stale", utf8 "OTHER x", []] := by
    decide
  have hfit : LinesFit exampleDraft := by
    intro l hl
    rw [hs] at hl
    simp only [List.mem_cons, List.mem_singleton, List.not_mem_nil, or_false] at hl
    rcases hl with rfl | rfl | rfl | rfl <;> decide
  have hcr : ∀ l ∈ specLines exampleDraft, ¬ utf8 "#" <+: l → ¬ [0x0D, 0x0D] <:+ l := by
    intro l hl
    rw [hs] at hl
    simp only [List.mem_cons, List.mem_singleton, List.not_mem_nil, or_false] at hl
    rcases hl with rfl | rfl | rfl | rfl <;> decide
  have ht : ∀ jt ∈ [utf8 "A1 Title A", utf8 "B2 Title B"],
      (0x0A : UInt8) ∉ jt ∧ jt.length + 1 < MaxScanTokenSize := by
    intro jt hjt
    simp only [List.mem_cons, List.mem_singleton, List.not_mem_nil, or_false] at hjt
    rcases hjt with rfl | rfl <;> decide
  have h := purge_append_twice exampleDraft [utf8 "A1 Title A", utf8 "B2 Title B"] hfit hcr ht
  have e : purged exampleDraft ++ dumped [utf8 "A1 Title A", utf8 "B2 Title B"]
      = utf8 "done\nOTHER x\n#A1 Title A\n#B2 Title B\n" := by decide
  rw [e] at h
  exact ⟨h.1, h.2.1⟩

/-- C6 fails on the code: when opening the draft for reading fails, `cleanInpulFile`
returns no error (`return nil` in the error branch), and `getAndDumpJIRATasks` goes on
to append: the stale comment line stays and the call ends without error. -/
theorem purge_open_failure_not_reported :
    cleanInpulFile unreadableDraft (some exampleDraft) = some (none, some exampleDraft)
      ∧ getAndDumpJIRATasks unreadableDraft (.ok exampleMatches) (some exampleDraft)
        = some (.ok (), some (utf8 "done\r\n#OLD-1 stale\nOTHER x\n#A1 Title A\n#B2 Title B\n")) := by
  refine ⟨by decide, by decide⟩

theorem scanLoop_total (rest builder : Str) :
    ∃ b e, scanLoop (rest.length + 1) rest builder = some (b, e) := by
  by_cases hfit : LinesFit rest
  · exact ⟨_, _, scanLoop_eq _ rest builder hfit (Nat.lt_succ_self _)⟩
  · obtain ⟨b, hb⟩ := scanLoop_tooLong _ rest builder hfit (Nat.lt_succ_self _)
    exact ⟨b, _, hb⟩

/-- When opening the draft succeeds and reading it fails (a read error, or a line that
reaches the limit of the scanner) or writing it back fails, `cleanInpulFile` returns an
error, and `getAndDumpJIRATasks` returns that error with the file as the purge left
it: nothing is appended. -/
theorem purge_read_write_failure_aborts (env : Faults) (disk : Option Str)
    (ms : List Submatch) (tasks : List Str)
    (hpair : getJIRATasks (.ok ms) = some (.ok tasks))
    (hopen : env.openRead = none)
    (hfail : env.read ≠ none ∨ env.writeFile ≠ none ∨ ¬ LinesFit (disk.getD [])) :
    ∃ e d, cleanInpulFile env disk = some (some e, d)
      ∧ getAndDumpJIRATasks env (.ok ms) disk = some (.error e, d) := by
  have key : ∃ e d, cleanInpulFile env disk = some (some e, d) := by
    unfold cleanInpulFile
    rw [hopen]
    simp only []
    cases hr : env.read with
    | some ne =>
      obtain ⟨n, e⟩ := ne
      obtain ⟨b, se, hs⟩ := scanLoop_total ((disk.getD []).take n) []
      simp only [hs, Option.map_some']
      cases se with
      | none => exact ⟨_, _, rfl⟩
      | some e1 => exact ⟨_, _, rfl⟩
    | none =>
      simp only [Option.map_none']
      by_cases hfit : LinesFit (disk.getD [])
      · rw [scanLoop_eq _ _ [] hfit (Nat.lt_succ_self _)]
        simp only []
        cases hw : env.writeFile with
        | some el => exact ⟨_, _, rfl⟩
        | none =>
          rcases hfail with h | h | h
          · exact absurd hr h
          · exact absurd hw h
          · exact absurd hfit h
      · obtain ⟨b, hb⟩ := scanLoop_tooLong _ _ [] hfit (Nat.lt_succ_self _)
        rw [hb]
        exact ⟨_, _, rfl⟩
  obtain ⟨e, d, h⟩ := key
  refine ⟨e, d, h, ?_⟩
  unfold getAndDumpJIRATasks purgeThenAppend
  rw [hpair, h]

/-- An example of a purge failure that is propagated: the write fails, the error is
returned and no fetched issue is appended. -/
theorem purge_read_write_failure_aborts_witness :
    getAndDumpJIRATasks fullDisk (.ok exampleMatches) (some exampleDraft)
        = some (.error "write report.txt: no space left on device", some [])
      ∧ ∃ e d, cleanInpulFile fullDisk (some exampleDraft) = some (some e, d)
        ∧ getAndDumpJIRATasks fullDisk (.ok exampleMatches) (some exampleDraft)
          = some (.error e, d) :=
  ⟨by decide, purge_read_write_failure_aborts fullDisk (some exampleDraft) exampleMatches
    [utf8 "A1 Title A", utf8 "B2 Title B"] (by decide) rfl (Or.inr (Or.inl (by decide)))⟩

end MailReporter
